import Mathlib

/-!
Verification development for the bookmark organizer repository.

The file embeds, as Lean definitions, the two core components of the
repository:

* `src/utils/chunker.py` — `BookmarkChunker.chunk_content`, which splits a
  parsed bookmark document into chunks bounded by a bookmark count, and
* `src/agents/categorizer.py` — `CategorizerAgent._parse_response` (response
  validation), `CategorizerAgent._process` (dispatch with retry), and
  `CategorizerAgent.categorize_bookmarks` (chunk loop, outer retry, merge and
  failure aggregation).

The embedding works at the level of the parsed HTML tree (a `<dt>` element is
either a bookmark entry containing an `<a>` anchor, or a folder entry
containing an `<h3>` header and a nested `<dl>` of child `<dt>` elements) and
at the level of decoded JSON values for the response validator.
-/

namespace BookmarkOrganizer

/-! ## Chunker model (`src/utils/chunker.py`)

A `Dt` value is one `<dt>` element of the bookmark file as produced by the
HTML parser: `bookmark id` is a `<dt>` holding an `<a>` anchor (the `id`
stands for the anchor's identity), and `folder id children` is a `<dt>`
holding an `<h3>` header and a nested `<dl>` whose `<dt>` children are
`children`. -/

inductive Dt where
  | bookmark (id : Nat)
  | folder (id : Nat) (children : List Dt)
deriving Repr

mutual

/-- Models `root_dl.find_all("dt", recursive=True)` for a single element:
the element itself followed by all of its `<dt>` descendants, in document
(pre-)order. -/
def dtSelfAndDescendants : Dt → List Dt
  | .bookmark i => [.bookmark i]
  | .folder i cs => .folder i cs :: dtAllDescendants cs

/-- Models `root_dl.find_all("dt", recursive=True)` on a list of sibling
`<dt>` elements: every element and every nested descendant, in document
order. -/
def dtAllDescendants : List Dt → List Dt
  | [] => []
  | d :: rest => dtSelfAndDescendants d ++ dtAllDescendants rest

end

mutual

/-- Models `dt.find("a") is not None`: whether the element or any of its
descendants is a bookmark anchor.  A bookmark `<dt>` holds an `<a>` itself;
a folder `<dt>` holds one exactly when some descendant bookmark exists. -/
def dtContainsA : Dt → Bool
  | .bookmark _ => true
  | .folder _ cs => dtListContainsA cs

/-- `dtContainsA` on a list of children (used for the nested `<dl>` of a
folder element). -/
def dtListContainsA : List Dt → Bool
  | [] => false
  | d :: rest => dtContainsA d || dtListContainsA rest

end

mutual

/-- Number of occurrences of the bookmark anchor `i` in the serialized form
`str(dt)` of one element — an occurrence inside a folder's subtree is
serialized again inside that folder's copy. -/
def dtOccCount (i : Nat) : Dt → Nat
  | .bookmark j => if j = i then 1 else 0
  | .folder _ cs => dtListOccCount i cs

/-- `dtOccCount` summed over a list of elements: occurrences of anchor `i`
in the concatenated serialization of the list. -/
def dtListOccCount (i : Nat) : List Dt → Nat
  | [] => 0
  | d :: rest => dtOccCount i d + dtListOccCount i rest

end

/-- The accumulation loop of `BookmarkChunker.chunk_content` (lines 42–59 of
`src/utils/chunker.py`): walk the `find_all` list, count an element when
`dt.find("a")` hits, append it to the current chunk, and emit the chunk as
soon as `current_bookmark_count >= max_bookmarks_per_chunk`; any non-empty
remainder is emitted at the end.  `maxB` is the Python `int`
`max_bookmarks_per_chunk` (modelled as `Int`, since the code never validates
its sign), `acc` the `current_chunk_dts` list and `count` the
`current_bookmark_count`. -/
def chunkLoop (maxB : Int) : List Dt → List Dt → Int → List (List Dt)
  | [], acc, _ => if acc.isEmpty then [] else [acc]
  | d :: rest, acc, count =>
      let count' := if dtContainsA d then count + 1 else count
      let acc' := acc ++ [d]
      if maxB ≤ count' then acc' :: chunkLoop maxB rest [] 0
      else chunkLoop maxB rest acc' count'

/-- Models `BookmarkChunker.chunk_content` applied to a document whose root
`<dl>` holds the sibling elements `dts`.  Each produced chunk is the list of
`<dt>` subtrees that `_create_chunk_html` copies (each subtree serialized in
full) into the fixed per-chunk boilerplate. -/
def chunk_content (maxB : Int) (dts : List Dt) : List (List Dt) :=
  chunkLoop maxB (dtAllDescendants dts) [] 0

/-- A `<dt>` with no nested children: a bookmark entry, or a folder whose
nested `<dl>` is empty. -/
def dtIsFlat : Dt → Bool
  | .bookmark _ => true
  | .folder _ cs => cs.isEmpty

/-- Bookmark count of a chunk exactly as the chunker counts: the number of
elements of the chunk for which `dt.find("a")` hits. -/
def chunkBookmarkCount (c : List Dt) : Nat :=
  (c.filter dtContainsA).length

/-! ## JSON values and the decoder used by the response validator

`CategorizerAgent._parse_response` calls `json.loads` on the cleaned
response text.  `Json` is the value domain of the decoder
(`dict` / `list` / `str` / numeric / boolean / `None`), and
`json_loads` models the decoder itself on the fragment the agent
exercises (objects, arrays, strings, integers, booleans, null). -/

inductive Json where
  | null
  | bool (b : Bool)
  | num (n : Int)
  | str (s : String)
  | arr (xs : List Json)
  | obj (kvs : List (String × Json))
deriving Repr

/-- Python `dict` update `m[k] = v`: overwrite the value at an existing key
(keeping its position), otherwise append the new key at the end. -/
def dictUpdate (m : List (String × Json)) (k : String) (v : Json) : List (String × Json) :=
  if m.any (fun kv => kv.1 = k) then m.map (fun kv => if kv.1 = k then (k, v) else kv)
  else m ++ [(k, v)]

/-- Building a Python `dict` from a sequence of key/value pairs in order
(what `json.loads` does for object members: a duplicate key keeps its first
position and its last value). -/
def listToDict (l : List (String × Json)) : List (String × Json) :=
  l.foldl (fun m kv => dictUpdate m kv.1 kv.2) []

/-- The whitespace characters `json.loads` skips between tokens. -/
def jsonWs (c : Char) : Bool :=
  c = ' ' || c = '\t' || c = '\n' || c = '\r'

/-- Drop leading JSON whitespace. -/
def skipWs : List Char → List Char
  | [] => []
  | c :: rest => if jsonWs c then skipWs rest else c :: rest

/-- Whether `s` starts with the pattern `p` (Python `str.startswith`,
applied to the underlying character sequences). -/
def listStartsWith : List Char → List Char → Bool
  | _, [] => true
  | [], _ :: _ => false
  | c :: cs, p :: ps => c = p && listStartsWith cs ps

/-- Whether `s` ends with the pattern `p` (Python `str.endswith`). -/
def listEndsWith (s p : List Char) : Bool :=
  listStartsWith s.reverse p.reverse

/-- Body of a JSON string literal after the opening quote: the decoded
characters and the remainder after the closing quote.  The escapes the
agent's responses can contain (`\"`, `\\`, `\n`, `\t`, `\r`) are decoded;
any other escaped character is kept as itself. -/
def parseStringChars : List Char → Option (List Char × List Char)
  | [] => none
  | c :: rest =>
    if c = '"' then some ([], rest)
    else if c = '\\' then
      match rest with
      | [] => none
      | e :: rest2 =>
        let d := if e = 'n' then '\n' else if e = 't' then '\t' else if e = 'r' then '\r' else e
        match parseStringChars rest2 with
        | none => none
        | some (cs, r) => some (d :: cs, r)
    else
      match parseStringChars rest with
      | none => none
      | some (cs, r) => some (c :: cs, r)

/-- Longest leading run of decimal digits and the remainder. -/
def takeDigits : List Char → List Char × List Char
  | [] => ([], [])
  | c :: rest =>
    if c.isDigit then
      let (ds, r) := takeDigits rest
      (c :: ds, r)
    else ([], c :: rest)

/-- Numeric value of a digit string. -/
def digitsToNat (ds : List Char) : Nat :=
  ds.foldl (fun acc c => 10 * acc + (c.toNat - '0'.toNat)) 0

/-- An integer literal starting at `s` (used after an optional minus sign);
a following `.`, `e` or `E` would make it a float, which the model does not
decode. -/
def parseIntLit (s : List Char) : Option (Nat × List Char) :=
  match takeDigits s with
  | ([], _) => none
  | (ds, r) =>
    match r with
    | [] => some (digitsToNat ds, [])
    | c :: _ => if c = '.' || c = 'e' || c = 'E' then none else some (digitsToNat ds, r)

mutual

/-- One JSON value starting at `s` (leading whitespace allowed): the value
and the remaining input.  `fuel` only bounds the recursion and is in excess
whenever it is at least the input length plus one. -/
def parseVal : Nat → List Char → Option (Json × List Char)
  | 0, _ => none
  | fuel+1, s =>
    match skipWs s with
    | [] => none
    | c :: rest =>
      if c = '"' then
        match parseStringChars rest with
        | none => none
        | some (cs, r) => some (.str ⟨cs⟩, r)
      else if c = '\x7b' then
        match parseMembers fuel rest with
        | none => none
        | some (kvs, r) => some (.obj (listToDict kvs), r)
      else if c = '[' then
        match parseItems fuel rest with
        | none => none
        | some (vs, r) => some (.arr vs, r)
      else if c = 't' then
        if listStartsWith rest "rue".data then some (.bool true, rest.drop 3) else none
      else if c = 'f' then
        if listStartsWith rest "alse".data then some (.bool false, rest.drop 4) else none
      else if c = 'n' then
        if listStartsWith rest "ull".data then some (.null, rest.drop 3) else none
      else if c = '-' then
        match parseIntLit rest with
        | none => none
        | some (m, r) => some (.num (-(m : Int)), r)
      else if c.isDigit then
        match parseIntLit (c :: rest) with
        | none => none
        | some (m, r) => some (.num (m : Int), r)
      else none

/-- Array elements after the opening bracket: an immediate `]` gives the
empty array, otherwise one or more comma-separated values. -/
def parseItems : Nat → List Char → Option (List Json × List Char)
  | 0, _ => none
  | fuel+1, s =>
    match skipWs s with
    | ']' :: r => some ([], r)
    | s' => parseItemsRest fuel s'

/-- One array element followed by either `,` and more elements or the
closing `]`. -/
def parseItemsRest : Nat → List Char → Option (List Json × List Char)
  | 0, _ => none
  | fuel+1, s =>
    match parseVal fuel s with
    | none => none
    | some (v, r) =>
      match skipWs r with
      | ',' :: r2 =>
        match parseItemsRest fuel r2 with
        | none => none
        | some (vs, r3) => some (v :: vs, r3)
      | ']' :: r2 => some ([v], r2)
      | _ => none

/-- Object members after the opening brace: an immediate closing brace
gives the empty object, otherwise one or more comma-separated members. -/
def parseMembers : Nat → List Char → Option (List (String × Json) × List Char)
  | 0, _ => none
  | fuel+1, s =>
    match skipWs s with
    | '\x7d' :: r => some ([], r)
    | s' => parseMembersRest fuel s'

/-- One `"key": value` member followed by either `,` and more members or
the closing brace. -/
def parseMembersRest : Nat → List Char → Option (List (String × Json) × List Char)
  | 0, _ => none
  | fuel+1, s =>
    match skipWs s with
    | '"' :: r =>
      match parseStringChars r with
      | none => none
      | some (kcs, r1) =>
        match skipWs r1 with
        | ':' :: r2 =>
          match parseVal fuel r2 with
          | none => none
          | some (v, r3) =>
            match skipWs r3 with
            | ',' :: r4 =>
              match parseMembersRest fuel r4 with
              | none => none
              | some (kvs, r5) => some ((⟨kcs⟩, v) :: kvs, r5)
            | '\x7d' :: r4 => some ([(⟨kcs⟩, v)], r4)
            | _ => none
        | _ => none
    | _ => none

end

/-- Models `json.loads` on the response text: one JSON document with
optional surrounding whitespace and nothing else. -/
def json_loads (s : List Char) : Option Json :=
  match parseVal (s.length + 1) s with
  | none => none
  | some (v, r) => if (skipWs r).isEmpty then some v else none

/-! ## Response validator model (`CategorizerAgent._parse_response`)

The validator receives the raw LLM response text.  It strips whitespace and
code-fence markers (lines 108–119 of `src/agents/categorizer.py`), decodes
the rest as JSON, and validates the category-map shape (lines 126–139).
Text is modelled as the sequence of its characters. -/

/-- Python `str.strip()` whitespace. -/
def isPyWs (c : Char) : Bool :=
  c = ' ' || c = '\t' || c = '\n' || c = '\r' || c = '\x0b' || c = '\x0c'

/-- Drop leading Python whitespace. -/
def dropLeadingWs : List Char → List Char
  | [] => []
  | c :: rest => if isPyWs c then dropLeadingWs rest else c :: rest

/-- Python `str.strip()`: leading and trailing whitespace removed. -/
def pyStrip (s : List Char) : List Char :=
  (dropLeadingWs (dropLeadingWs s).reverse).reverse

/-- The clean-up step of `_parse_response` (lines 108–119): strip, drop a
leading `¬``json¬`` marker, then a leading `¬``¬`` marker, then a trailing
`¬``¬`` marker, and strip again — each of the three `if`s of the source in
order (backticks written as `¬`` here). -/
def cleanResponse (s : List Char) : List Char :=
  let r0 := pyStrip s
  let r1 := if listStartsWith r0 "```json".data then r0.drop 7 else r0
  let r2 := if listStartsWith r1 "```".data then r1.drop 3 else r1
  let r3 := if listEndsWith r2 "```".data then r2.take (r2.length - 3) else r2
  pyStrip r3

/-- The distinct `ValueError`s `_parse_response` can raise, keeping the data
each of its messages interpolates. -/
inductive RespError where
  | invalidJson
  | notADict
  | categoryNotList (category : String)
  | invalidBookmark (category : String) (item : Json)
  | missingFields (category : String) (item : Json)
deriving Repr

/-- Python `k in d` on a decoded JSON object. -/
def jsonHasKey (kvs : List (String × Json)) (k : String) : Bool :=
  kvs.any (fun kv => kv.1 = k)

/-- Validation of one bookmark item (lines 135–139): it must be a mapping,
and must contain the keys `title` and `url`. -/
def checkBookmark (category : String) (b : Json) : Option RespError :=
  match b with
  | .obj kvs =>
    if jsonHasKey kvs "title" && jsonHasKey kvs "url" then none
    else some (.missingFields category b)
  | _ => some (.invalidBookmark category b)

/-- First failing bookmark of one category's list, if any. -/
def checkBookmarkList (category : String) : List Json → Option RespError
  | [] => none
  | b :: rest =>
    match checkBookmark category b with
    | some e => some e
    | none => checkBookmarkList category rest

/-- The validation loop over `data.items()` (lines 130–139): each category's
value must be a list, and each of its items a valid bookmark; the first
violation raises. -/
def checkCategories : List (String × Json) → Option RespError
  | [] => none
  | (c, v) :: rest =>
    match v with
    | .arr items =>
      match checkBookmarkList c items with
      | some e => some e
      | none => checkCategories rest
    | _ => some (.categoryNotList c)

/-- Models `CategorizerAgent._parse_response`: clean the text, decode it as
JSON, require a dictionary, validate every category, and return the decoded
data unchanged. -/
def parse_response (s : List Char) : Except RespError Json :=
  match json_loads (cleanResponse s) with
  | none => .error .invalidJson
  | some (.obj kvs) =>
    match checkCategories kvs with
    | some e => .error e
    | none => .ok (.obj kvs)
  | some _ => .error .notADict

/-- A bookmark item the validator accepts: a mapping with a `title` key and
a `url` key. -/
def goodItem (b : Json) : Bool :=
  match b with
  | .obj kvs => jsonHasKey kvs "title" && jsonHasKey kvs "url"
  | _ => false

/-! ## Aggregator model (`CategorizerAgent.categorize_bookmarks`)

The aggregator splits the bookmark list into fixed slices of
`CHUNK_SIZE = 10`, and per slice runs an outer retry loop
(`max_retries = 3`) around dispatch plus validation.  The outcome of one
outer attempt is abstracted by an oracle `att : Nat → Option (CatMap α)`:
`att t = none` models an exception escaping `self._process` or
`self._parse_response` on attempt `t`, and `att t = some m` the parsed
category map `m`.  Category-map items are opaque (`α`): the merge code
never inspects them. -/

/-- A category map: insertion-ordered mapping from category name to its
item list (a Python `dict` of lists). -/
abbrev CatMap (α : Type) := List (String × List α)

/-- The hard-coded slice size of `categorize_bookmarks` (line 159). -/
def CHUNK_SIZE : Nat := 10

/-- Iteration core of the `range(0, len(bookmarks), k)` slicing loop; the
fuel only bounds the number of slices and is in excess whenever it is at
least the input length (one slice consumes at least one element for
`0 < k`). -/
def chunksOfAux (k : Nat) {α : Type} : Nat → List α → List (List α)
  | 0, _ => []
  | _, [] => []
  | fuel+1, l => l.take k :: chunksOfAux k fuel (l.drop k)

/-- The slicing loop `bookmarks[i:i + CHUNK_SIZE]` for
`i in range(0, len(bookmarks), CHUNK_SIZE)` (lines 163–164). -/
def chunksOf (k : Nat) {α : Type} (l : List α) : List (List α) :=
  chunksOfAux k l.length l

/-- Python `category in all_categories`. -/
def hasCategory {α : Type} (m : CatMap α) (k : String) : Bool :=
  m.any (fun kv => kv.1 = k)

/-- The merge of one category into the aggregate (lines 201–204): create the
key with an empty list when absent, then `extend` with the chunk's items. -/
def mergeCategory {α : Type} (m : CatMap α) (k : String) (items : List α) : CatMap α :=
  if hasCategory m k then m.map (fun kv => if kv.1 = k then (kv.1, kv.2 ++ items) else kv)
  else m ++ [(k, items)]

/-- The merge loop `for category, items in chunk_categories.items()` over
one chunk's parsed map. -/
def mergeChunk {α : Type} (agg chunk : CatMap α) : CatMap α :=
  chunk.foldl (fun a kv => mergeCategory a kv.1 kv.2) agg

/-- The `while retry_count < max_retries` loop for one chunk (lines
185–216): attempt `att retryCount`; an exception (`none`) or an empty
parsed map (re-raised as `"Empty response from LLM"`, line 196) consumes one
retry; a non-empty map succeeds.  `none` overall means the chunk is recorded
as permanently failed. -/
def chunkRetryLoop {α : Type} (att : Nat → Option (CatMap α)) (retryCount : Nat) :
    Nat → Option (CatMap α)
  | 0 => none
  | fuel+1 =>
    match att retryCount with
    | some m => if m.isEmpty then chunkRetryLoop att (retryCount+1) fuel else some m
    | none => chunkRetryLoop att (retryCount+1) fuel

/-- One chunk's processing: the retry loop started at `retry_count = 0` with
`max_retries = 3`. -/
def runChunk {α : Type} (att : Nat → Option (CatMap α)) : Option (CatMap α) :=
  chunkRetryLoop att 0 3

/-- Whether one outer attempt counts as a failure for retry purposes: an
exception, or a structurally valid but empty map. -/
def attemptFails {α : Type} : Option (CatMap α) → Bool
  | none => true
  | some m => m.isEmpty

/-- Whether a chunk fails all three of its outer attempts and is recorded in
`failed_chunks`. -/
def chunkPermanentlyFails {α : Type} (att : Nat → Option (CatMap α)) : Bool :=
  attemptFails (att 0) && attemptFails (att 1) && attemptFails (att 2)

/-- The 1-based numbers (`chunk_num = i//CHUNK_SIZE + 1`) of the chunks among
the first `n` that fail permanently. -/
def permanentlyFailedIdxs {α : Type} (oracle : Nat → Nat → Option (CatMap α)) (n : Nat) :
    List Nat :=
  ((List.range n).filter (fun i => chunkPermanentlyFails (oracle i))).map (fun i => i + 1)

/-- The `for i in range(0, len(bookmarks), CHUNK_SIZE)` loop (lines
163–216): process each chunk in order; on success merge its map into the
aggregate, on permanent failure append its 1-based number to
`failed_chunks` and continue with the next chunk.  `oracle i t` is the
outcome of outer attempt `t` for the chunk at position `i`. -/
def categorizeLoop {α β : Type} (oracle : Nat → Nat → Option (CatMap α)) :
    List (List β) → Nat → CatMap α → List Nat → CatMap α × List Nat
  | [], _, agg, failed => (agg, failed)
  | _ :: rest, idx, agg, failed =>
    match runChunk (oracle idx) with
    | some m => categorizeLoop oracle rest (idx+1) (mergeChunk agg m) failed
    | none => categorizeLoop oracle rest (idx+1) agg (failed ++ [idx + 1])

/-- Models `CategorizerAgent.categorize_bookmarks` (lines 152–224): empty
input returns an empty map at once; otherwise every chunk is processed, and
afterwards the run raises (`.error` with the failed chunk numbers) exactly
when `failed_chunks` is non-empty and the aggregate is still empty,
returning the aggregate otherwise. -/
def categorize_bookmarks {α β : Type} (bookmarks : List β)
    (oracle : Nat → Nat → Option (CatMap α)) : Except (List Nat) (CatMap α) :=
  if bookmarks.isEmpty then .ok []
  else
    let r := categorizeLoop oracle (chunksOf CHUNK_SIZE bookmarks) 0 [] []
    if r.2.isEmpty then .ok r.1
    else if r.1.isEmpty then .error r.2
    else .ok r.1

/-- Combination of two optional item lists the way a merge combines an
existing aggregate entry with a chunk entry under one key. -/
def combineOpt {α : Type} : Option (List α) → Option (List α) → Option (List α)
  | some a, some b => some (a ++ b)
  | some a, none => some a
  | none, b => b

/-- Items recorded under category `k` (first entry wins, as in a `dict`). -/
def lookupCategory {α : Type} (m : CatMap α) (k : String) : Option (List α) :=
  (m.find? (fun kv => kv.1 = k)).map (fun kv => kv.2)

/-! ## Dispatcher model (`CategorizerAgent._process`)

`_process` is decorated with
`@retry(stop=stop_after_attempt(3), wait=wait_exponential(multiplier=1, min=4, max=10))`
and performs one HTTP request per attempt; `_parse_response` runs outside
it, in `categorize_bookmarks`.  `transport n` is the outcome of the `n`-th
underlying request of one decorated call (`some text` success, `none` a
raised error), and the pair returned is the final outcome together with how
many underlying requests were consumed. -/

/-- The attempt loop of the `tenacity` decorator: up to `fuel` attempts,
stopping at the first success. -/
def dispatchRetry {σ : Type} (transport : Nat → Option σ) : Nat → Nat → Option σ × Nat
  | _, 0 => (none, 0)
  | start, fuel+1 =>
    match transport start with
    | some s => (some s, 1)
    | none =>
      let r := dispatchRetry transport (start+1) fuel
      (r.1, r.2 + 1)

/-- One decorated `_process` call: `stop_after_attempt(3)`. -/
def dispatch {σ : Type} (transport : Nat → Option σ) : Option σ × Nat :=
  dispatchRetry transport 0 3

/-- The backoff of `wait_exponential(multiplier=1, min=4, max=10)` after the
`n`-th failed attempt: `1 * 2^n` clamped into `[4, 10]`. -/
def waitAfterAttempt (n : Nat) : Nat :=
  min 10 (max 4 (2 ^ n))

/-- Whether `categorize_bookmarks` accepts a response text: it must parse,
and the parsed map must be non-empty (line 195). -/
def respAccepted (s : List Char) : Bool :=
  match parse_response s with
  | .ok (.obj kvs) => !kvs.isEmpty
  | _ => false

/-- The outer retry loop of one chunk, counting underlying requests: each
round is one decorated `_process` call (up to 3 requests) followed by
validation; any failure starts the next round.  `transport k n` is the
outcome of underlying request `n` of round `k`. -/
def outerRequestLoop (transport : Nat → Nat → Option (List Char)) :
    Nat → Nat → Option (List Char) × Nat
  | _, 0 => (none, 0)
  | k, fuel+1 =>
    let d := dispatch (transport k)
    match d.1 with
    | some s =>
      if respAccepted s then (some s, d.2)
      else
        let r := outerRequestLoop transport (k+1) fuel
        (r.1, d.2 + r.2)
    | none =>
      let r := outerRequestLoop transport (k+1) fuel
      (r.1, d.2 + r.2)

/-- Total number of underlying requests one chunk can consume: 3 outer
rounds over the decorated call. -/
def chunkRequestCount (transport : Nat → Nat → Option (List Char)) : Nat :=
  (outerRequestLoop transport 0 3).2

/-- The failed chunk numbers collected over `n` chunks starting at position
`idx`, written as a recursion that mirrors the aggregation loop. -/
def failedIdxsFrom {α : Type} (oracle : Nat → Nat → Option (CatMap α)) (idx : Nat) :
    Nat → List Nat
  | 0 => []
  | n+1 => (if chunkPermanentlyFails (oracle idx) then [idx + 1] else [])
      ++ failedIdxsFrom oracle (idx+1) n

/-- Whether all of the `n` chunks starting at position `idx` fail
permanently. -/
def allChunksFail {α : Type} (oracle : Nat → Nat → Option (CatMap α)) (idx : Nat) :
    Nat → Bool
  | 0 => true
  | n+1 => chunkPermanentlyFails (oracle idx) && allChunksFail oracle (idx+1) n

/-! ### Chunker lemmas -/

/-- The chunk loop only regroups the walked list: concatenating the emitted
chunks gives back the accumulator followed by the remaining input. -/
theorem chunkLoop_flatten (maxB : Int) :
    ∀ (l acc : List Dt) (c : Int), (chunkLoop maxB l acc c).flatten = acc ++ l := by
  intro l
  induction l with
  | nil =>
    intro acc c
    by_cases h : acc.isEmpty
    · simp [chunkLoop, h, List.isEmpty_iff.mp h]
    · simp [chunkLoop, h]
  | cons d rest ih =>
    intro acc c
    simp only [chunkLoop]
    by_cases h : maxB ≤ (if dtContainsA d then c + 1 else c)
    · simp [h, ih]
    · simp [h, ih]

/-- On a list of elements without nested children, the `find_all` walk is the
list itself. -/
theorem dtAllDescendants_flat :
    ∀ (dts : List Dt), (∀ d ∈ dts, dtIsFlat d) → dtAllDescendants dts = dts := by
  intro dts
  induction dts with
  | nil => intro _; rfl
  | cons d rest ih =>
    intro h
    have hd := h d (by simp)
    have hrest : ∀ x ∈ rest, dtIsFlat x := fun x hx => h x (by simp [hx])
    cases d with
    | bookmark i => simp [dtAllDescendants, dtSelfAndDescendants, ih hrest]
    | folder i cs =>
      have : cs = [] := by simpa [dtIsFlat] using hd
      subst this
      simp [dtAllDescendants, dtSelfAndDescendants, ih hrest]

/-- Chunk count of the loop on an all-bookmark input: with `acc` already
holding `acc.length` counted bookmarks, the loop emits
`⌈(acc.length + ids.length) / K⌉` chunks. -/
theorem chunkLoop_len (K : Int) (hK : 0 < K) :
    ∀ (ids : List Nat) (acc : List Dt), (acc.length : Int) < K →
      (chunkLoop K (ids.map Dt.bookmark) acc acc.length).length
        = (acc.length + ids.length + K.toNat - 1) / K.toNat := by
  have hK' : 0 < K.toNat := by omega
  intro ids
  induction ids with
  | nil =>
    intro acc hlt
    have hlt' : acc.length < K.toNat := by omega
    cases acc with
    | nil =>
      simp only [List.map_nil, chunkLoop, List.isEmpty_nil, if_true, List.length_nil]
      exact (Nat.div_eq_of_lt (by omega)).symm
    | cons a as =>
      have hne : ¬ ((a :: as).isEmpty = true) := by simp
      simp only [List.map_nil, chunkLoop]
      rw [if_neg hne]
      simp only [List.length_singleton, List.length_cons, List.length_nil]
      refine (Nat.div_eq_of_lt_le ?_ ?_).symm
      · simp only [List.length_cons] at hlt'
        omega
      · simp only [List.length_cons] at hlt'
        omega
  | cons i rest ih =>
    intro acc hlt
    have hlt' : acc.length < K.toNat := by omega
    simp only [List.map_cons, chunkLoop, dtContainsA, if_true]
    by_cases h : K ≤ (acc.length : Int) + 1
    · rw [if_pos h]
      have ih0 := ih [] (by exact_mod_cast hK)
      simp only [List.length_nil, Nat.cast_zero, Nat.zero_add, zero_add] at ih0
      rw [List.length_cons, ih0]
      have hnum : acc.length + (i :: rest).length + K.toNat - 1
          = (rest.length + K.toNat - 1) + K.toNat := by
        simp only [List.length_cons]; omega
      rw [hnum, Nat.add_div_right _ hK']
    · rw [if_neg h]
      have harg : ((acc.length : Int) + 1) = (((acc ++ [Dt.bookmark i]).length : Nat) : Int) := by
        simp
      rw [harg, ih (acc ++ [Dt.bookmark i])
        (by simp only [List.length_append, List.length_singleton]; omega)]
      have hsz : (acc ++ [Dt.bookmark i]).length = acc.length + 1 := by simp
      rw [hsz]
      congr 1
      simp only [List.length_cons]
      omega

/-- With a non-positive limit, the emit condition holds after every single
append, so every walked element is emitted as its own chunk. -/
theorem chunkLoop_nonpos (K : Int) (hK : K ≤ 0) :
    ∀ (l : List Dt), chunkLoop K l [] 0 = l.map (fun d => [d]) := by
  intro l
  induction l with
  | nil => rfl
  | cons d rest ih =>
    simp only [chunkLoop, List.map_cons]
    rw [if_pos (by split <;> omega)]
    simp [ih]

/-! ### Claim C1 -/

/-- C1 fails on the code: for the nested input of one folder holding one
bookmark and limit 2, the chunker walks `find_all("dt", recursive=True)`, so
the inner bookmark is appended both inside its folder's subtree copy and as
its own element.  The single produced chunk (so no folder spans any chunk
boundary here) serializes anchor 1 twice, while the original document holds
it once: concatenating the chunks does not reproduce the original node
sequence, and a node appears twice. -/
theorem c1_counterexample :
    chunk_content 2 [Dt.folder 0 [Dt.bookmark 1]]
      = [[Dt.folder 0 [Dt.bookmark 1], Dt.bookmark 1]]
    ∧ dtListOccCount 1 (chunk_content 2 [Dt.folder 0 [Dt.bookmark 1]]).flatten = 2
    ∧ dtListOccCount 1 [Dt.folder 0 [Dt.bookmark 1]] = 1
    ∧ (chunk_content 2 [Dt.folder 0 [Dt.bookmark 1]]).length = 1 :=
  ⟨rfl, rfl, rfl, rfl⟩

/-- C1 (amended): concatenating the chunks in order and stripping the
per-chunk boilerplate reproduces, for every input and limit, the pre-order
`find_all` walk of the tree — every walked element appears in exactly one
chunk, in original relative order; in particular on flat inputs (no folder
has children) this is exactly the original node sequence.  On nested inputs
a node reappears inside the serialized copy of each of its folder
ancestors. -/
theorem c1_amended (maxB : Int) (dts : List Dt) :
    (chunk_content maxB dts).flatten = dtAllDescendants dts
    ∧ ((∀ d ∈ dts, dtIsFlat d) → (chunk_content maxB dts).flatten = dts) := by
  have h1 : (chunk_content maxB dts).flatten = dtAllDescendants dts := by
    unfold chunk_content
    simpa using chunkLoop_flatten maxB (dtAllDescendants dts) [] 0
  exact ⟨h1, fun hf => by rw [h1, dtAllDescendants_flat dts hf]⟩

/-- Witness for C1 (amended) at a concrete flat input. -/
theorem c1_amended_witness :
    (chunk_content 2 [Dt.bookmark 5, Dt.bookmark 6, Dt.bookmark 7]).flatten
      = [Dt.bookmark 5, Dt.bookmark 6, Dt.bookmark 7] :=
  (c1_amended 2 [Dt.bookmark 5, Dt.bookmark 6, Dt.bookmark 7]).2 (by
    intro d hd
    simp only [List.mem_cons, List.not_mem_nil, or_false] at hd
    rcases hd with rfl | rfl | rfl <;> rfl)

/-! ### Claim C2 -/

/-- C2: on a flat sequence of `N` bookmarks (no folder markers) with limit
`K > 0`, the chunker emits exactly `⌈N/K⌉` chunks, the per-chunk bookmark
counts sum to `N` (a trailing remainder is emitted as a final short chunk),
and empty input yields no chunks. -/
theorem c2_chunk_coverage (K : Int) (ids : List Nat) (hK : 0 < K) :
    (chunk_content K (ids.map Dt.bookmark)).length = (ids.length + K.toNat - 1) / K.toNat
    ∧ ((chunk_content K (ids.map Dt.bookmark)).map chunkBookmarkCount).sum = ids.length
    ∧ (ids = [] → chunk_content K (ids.map Dt.bookmark) = []) := by
  have hflat : dtAllDescendants (ids.map Dt.bookmark) = ids.map Dt.bookmark := by
    apply dtAllDescendants_flat
    intro d hd
    simp only [List.mem_map] at hd
    obtain ⟨i, _, rfl⟩ := hd
    rfl
  refine ⟨?_, ?_, ?_⟩
  · unfold chunk_content
    rw [hflat]
    have h := chunkLoop_len K hK ids []
    simp only [List.length_nil, Nat.cast_zero, Nat.zero_add, zero_add] at h
    exact h (by exact_mod_cast hK)
  · have hj : (chunk_content K (ids.map Dt.bookmark)).flatten = ids.map Dt.bookmark := by
      unfold chunk_content
      rw [hflat]
      simpa using chunkLoop_flatten K (ids.map Dt.bookmark) [] 0
    have hcalc : ((chunk_content K (ids.map Dt.bookmark)).map chunkBookmarkCount).sum
        = ((chunk_content K (ids.map Dt.bookmark)).flatten.filter dtContainsA).length := by
      rw [List.filter_flatten, List.length_flatten, List.map_map]
      rfl
    rw [hcalc, hj, List.filter_eq_self.mpr ?_]
    · simp
    · intro a ha
      simp only [List.mem_map] at ha
      obtain ⟨i, _, rfl⟩ := ha
      rfl
  · intro h
    subst h
    rfl

/-- Witness for C2 at a concrete flat input of 3 bookmarks and limit 2. -/
theorem c2_chunk_coverage_witness :
    (chunk_content 2 ([5, 6, 7].map Dt.bookmark)).length
      = (([5, 6, 7] : List Nat).length + (2 : Int).toNat - 1) / (2 : Int).toNat
    ∧ ((chunk_content 2 ([5, 6, 7].map Dt.bookmark)).map chunkBookmarkCount).sum
      = ([5, 6, 7] : List Nat).length
    ∧ (([5, 6, 7] : List Nat) = [] → chunk_content 2 ([5, 6, 7].map Dt.bookmark) = []) :=
  c2_chunk_coverage 2 [5, 6, 7] (by norm_num)

/-! ### Claim C9 -/

/-- C9 fails on the code: neither `BookmarkChunker.__init__` nor
`chunk_content` validates `max_bookmarks_per_chunk`, so a non-positive limit
is not an input-validation error — the chunker happily produces chunks (the
emit condition holds after every append). -/
theorem c9_counterexample :
    chunk_content 0 [Dt.bookmark 0, Dt.bookmark 1] = [[Dt.bookmark 0], [Dt.bookmark 1]]
    ∧ (chunk_content 0 [Dt.bookmark 0, Dt.bookmark 1]).length = 2 :=
  ⟨rfl, rfl⟩

/-- C9 (amended): a non-positive `max_bookmarks_per_chunk` is accepted
without validation; since the counter check `count >= max` then holds after
every single append, every walked element is emitted as a chunk of its
own. -/
theorem c9_amended (K : Int) (hK : K ≤ 0) (dts : List Dt) :
    chunk_content K dts = (dtAllDescendants dts).map (fun d => [d]) := by
  unfold chunk_content
  exact chunkLoop_nonpos K hK _

/-- Witness for C9 (amended) at limit −3. -/
theorem c9_amended_witness :
    chunk_content (-3) [Dt.bookmark 4] = (dtAllDescendants [Dt.bookmark 4]).map (fun d => [d]) :=
  c9_amended (-3) (by norm_num) [Dt.bookmark 4]

/-! ### Aggregator lemmas -/

theorem runChunk_eq_none_iff {α : Type} (att : Nat → Option (CatMap α)) :
    runChunk att = none ↔ chunkPermanentlyFails att = true := by
  unfold runChunk chunkPermanentlyFails attemptFails
  rcases h0 : att 0 with _ | m0 <;> rcases h1 : att 1 with _ | m1 <;>
    rcases h2 : att 2 with _ | m2 <;>
    simp only [chunkRetryLoop, h0, h1, h2] <;> (try split_ifs) <;>
    simp_all [List.isEmpty_iff]

theorem runChunk_some_nonempty {α : Type} (att : Nat → Option (CatMap α)) (m : CatMap α)
    (h : runChunk att = some m) : m.isEmpty = false := by
  unfold runChunk at h
  rcases h0 : att 0 with _ | m0 <;> rcases h1 : att 1 with _ | m1 <;>
    rcases h2 : att 2 with _ | m2 <;>
    simp only [chunkRetryLoop, h0, h1, h2] at h <;> (try split_ifs at h) <;>
    simp_all [List.isEmpty_iff]

theorem length_mergeCategory {α : Type} (m : CatMap α) (k : String) (its : List α) :
    m.length ≤ (mergeCategory m k its).length ∧ 0 < (mergeCategory m k its).length := by
  unfold mergeCategory
  split_ifs with h
  · constructor
    · simp
    · rcases m with _ | ⟨kv, rest⟩
      · simp [hasCategory] at h
      · simp
  · simp

theorem length_mergeChunk {α : Type} :
    ∀ (chunk agg : CatMap α), agg.length ≤ (mergeChunk agg chunk).length := by
  intro chunk
  induction chunk with
  | nil => intro agg; simp [mergeChunk]
  | cons kv rest ih =>
    intro agg
    have h1 := (length_mergeCategory agg kv.1 kv.2).1
    have h2 := ih (mergeCategory agg kv.1 kv.2)
    calc agg.length ≤ (mergeCategory agg kv.1 kv.2).length := h1
      _ ≤ (mergeChunk (mergeCategory agg kv.1 kv.2) rest).length := h2

theorem mergeChunk_isEmpty {α : Type} (agg chunk : CatMap α) (h : chunk.isEmpty = false) :
    (mergeChunk agg chunk).isEmpty = false := by
  rcases chunk with _ | ⟨kv, rest⟩
  · simp at h
  · have h1 := (length_mergeCategory agg kv.1 kv.2).2
    have h2 := length_mergeChunk rest (mergeCategory agg kv.1 kv.2)
    have hlen : 0 < (mergeChunk agg (kv :: rest)).length := by
      have he : mergeChunk agg (kv :: rest) = mergeChunk (mergeCategory agg kv.1 kv.2) rest := rfl
      rw [he]
      omega
    rcases hm : mergeChunk agg (kv :: rest) with _ | _
    · rw [hm] at hlen
      simp at hlen
    · simp

theorem failedIdxsFrom_eq {α : Type} (oracle : Nat → Nat → Option (CatMap α)) :
    ∀ (n idx : Nat),
      failedIdxsFrom oracle idx n
        = ((List.range n).filter (fun j => chunkPermanentlyFails (oracle (idx + j)))).map
            (fun j => idx + j + 1) := by
  intro n
  induction n with
  | zero => intro idx; rfl
  | succ n ih =>
    intro idx
    rw [List.range_succ_eq_map, List.filter_cons]
    have hfil : List.filter ((fun j => chunkPermanentlyFails (oracle (idx + j))) ∘ Nat.succ)
          (List.range n)
        = List.filter (fun j => chunkPermanentlyFails (oracle (idx + 1 + j))) (List.range n) := by
      apply List.filter_congr
      intro j _
      show chunkPermanentlyFails (oracle (idx + Nat.succ j)) = _
      have e : idx + Nat.succ j = idx + 1 + j := by omega
      rw [e]
    have hmap : ∀ (l : List Nat),
        (l.map Nat.succ).map (fun j => idx + j + 1) = l.map (fun j => idx + 1 + j + 1) := by
      intro l
      rw [List.map_map]
      apply List.map_congr_left
      intro j _
      show idx + Nat.succ j + 1 = idx + 1 + j + 1
      omega
    show (if chunkPermanentlyFails (oracle idx) then [idx + 1] else [])
        ++ failedIdxsFrom oracle (idx+1) n = _
    rw [ih (idx+1)]
    by_cases hp : chunkPermanentlyFails (oracle idx) = true
    · simp only [Nat.add_zero, hp, if_pos, List.filter_map]
      rw [hfil, List.map_cons, hmap]
      simp
    · simp [hp, List.filter_map, hfil, hmap]

theorem allChunksFail_iff {α : Type} (oracle : Nat → Nat → Option (CatMap α)) :
    ∀ (n idx : Nat),
      allChunksFail oracle idx n = true
        ↔ ∀ j < n, chunkPermanentlyFails (oracle (idx + j)) = true := by
  intro n
  induction n with
  | zero =>
    intro idx
    simp [allChunksFail]
  | succ n ih =>
    intro idx
    show (chunkPermanentlyFails (oracle idx) && allChunksFail oracle (idx+1) n) = true ↔ _
    rw [Bool.and_eq_true, ih (idx+1)]
    constructor
    · rintro ⟨h0, hrest⟩ j hj
      cases j with
      | zero => simpa using h0
      | succ j0 =>
        have := hrest j0 (by omega)
        have e : idx + (j0 + 1) = idx + 1 + j0 := by omega
        rw [e]
        exact this
    · intro h
      refine ⟨by simpa using h 0 (by omega), ?_⟩
      intro j hj
      have := h (j+1) (by omega)
      have e : idx + 1 + j = idx + (j + 1) := by omega
      rw [e]
      exact this

theorem categorizeLoop_spec {α β : Type} (oracle : Nat → Nat → Option (CatMap α)) :
    ∀ (chunks : List (List β)) (idx : Nat) (agg : CatMap α) (failed : List Nat),
      (categorizeLoop oracle chunks idx agg failed).2 = failed ++ failedIdxsFrom oracle idx chunks.length
      ∧ (categorizeLoop oracle chunks idx agg failed).1.isEmpty
          = (agg.isEmpty && allChunksFail oracle idx chunks.length) := by
  intro chunks
  induction chunks with
  | nil =>
    intro idx agg failed
    simp [categorizeLoop, failedIdxsFrom, allChunksFail]
  | cons c rest ih =>
    intro idx agg failed
    rcases hr : runChunk (oracle idx) with _ | m
    · have hperm : chunkPermanentlyFails (oracle idx) = true :=
        (runChunk_eq_none_iff (oracle idx)).mp hr
      have hloop : categorizeLoop oracle (c :: rest) idx agg failed
          = categorizeLoop oracle rest (idx+1) agg (failed ++ [idx + 1]) := by
        simp [categorizeLoop, hr]
      rw [hloop]
      obtain ⟨ih1, ih2⟩ := ih (idx+1) agg (failed ++ [idx + 1])
      refine ⟨?_, ?_⟩
      · rw [ih1]
        show _ = failed ++ ((if chunkPermanentlyFails (oracle idx) then [idx + 1] else [])
            ++ failedIdxsFrom oracle (idx+1) rest.length)
        rw [hperm]
        simp
      · rw [ih2]
        show _ = (agg.isEmpty && (chunkPermanentlyFails (oracle idx) && allChunksFail oracle (idx+1) rest.length))
        rw [hperm]
        simp
    · have hperm : chunkPermanentlyFails (oracle idx) = false := by
        rcases hb : chunkPermanentlyFails (oracle idx) with _ | _
        · rfl
        · exact absurd ((runChunk_eq_none_iff (oracle idx)).mpr hb) (by simp [hr])
      have hloop : categorizeLoop oracle (c :: rest) idx agg failed
          = categorizeLoop oracle rest (idx+1) (mergeChunk agg m) failed := by
        simp [categorizeLoop, hr]
      rw [hloop]
      obtain ⟨ih1, ih2⟩ := ih (idx+1) (mergeChunk agg m) failed
      refine ⟨?_, ?_⟩
      · rw [ih1]
        show _ = failed ++ ((if chunkPermanentlyFails (oracle idx) then [idx + 1] else [])
            ++ failedIdxsFrom oracle (idx+1) rest.length)
        rw [hperm]
        simp
      · rw [ih2]
        show _ = (agg.isEmpty && (chunkPermanentlyFails (oracle idx) && allChunksFail oracle (idx+1) rest.length))
        rw [hperm]
        have hme : (mergeChunk agg m).isEmpty = false :=
          mergeChunk_isEmpty agg m (runChunk_some_nonempty (oracle idx) m hr)
        rw [hme]
        simp


/-! ### Claim C3 -/

/-- C3: `categorize_bookmarks` raises (an `AggregationError` listing the
1-based number of every permanently failed chunk) exactly when at least one
chunk failed permanently and the aggregate is still empty — equivalently,
when every chunk of a non-empty input failed; when at least one chunk
succeeds the (possibly partial) aggregate is returned without raising, and
one chunk's permanent failure never aborts the remaining chunks (the failed
list accounts for all chunk positions). -/
theorem c3_aggregation_policy {α β : Type} (bookmarks : List β)
    (oracle : Nat → Nat → Option (CatMap α)) :
    (∀ fs, categorize_bookmarks bookmarks oracle = .error fs ↔
        (fs = permanentlyFailedIdxs oracle (chunksOf CHUNK_SIZE bookmarks).length
         ∧ fs ≠ []
         ∧ ∀ i < (chunksOf CHUNK_SIZE bookmarks).length, chunkPermanentlyFails (oracle i) = true))
    ∧ ((∃ i, i < (chunksOf CHUNK_SIZE bookmarks).length ∧ chunkPermanentlyFails (oracle i) = false) →
        ∃ m, categorize_bookmarks bookmarks oracle = .ok m ∧ m.isEmpty = false) := by
  by_cases hb : bookmarks.isEmpty
  · have hbe : bookmarks = [] := List.isEmpty_iff.mp hb
    subst hbe
    constructor
    · intro fs
      constructor
      · intro h
        simp [categorize_bookmarks] at h
      · rintro ⟨h1, h2, _⟩
        exact absurd h1 (by simpa [permanentlyFailedIdxs] using h2)
    · rintro ⟨i, hi, _⟩
      simp [chunksOf, chunksOfAux] at hi
  · have hne : ¬ (bookmarks.isEmpty = true) := hb
    obtain ⟨h2, h1⟩ := categorizeLoop_spec oracle (chunksOf CHUNK_SIZE bookmarks) 0 [] []
    set L := chunksOf CHUNK_SIZE bookmarks with hL
    set r := categorizeLoop oracle L 0 [] [] with hrdef
    have hr2 : r.2 = failedIdxsFrom oracle 0 L.length := by simpa using h2
    have hr1 : r.1.isEmpty = allChunksFail oracle 0 L.length := by simpa using h1
    have hfe : failedIdxsFrom oracle 0 L.length = permanentlyFailedIdxs oracle L.length := by
      rw [failedIdxsFrom_eq]
      unfold permanentlyFailedIdxs
      have hfil : (List.range L.length).filter (fun j => chunkPermanentlyFails (oracle (0 + j)))
          = (List.range L.length).filter (fun i => chunkPermanentlyFails (oracle i)) := by
        apply List.filter_congr
        intro j _
        show chunkPermanentlyFails (oracle (0 + j)) = _
        rw [Nat.zero_add]
      rw [hfil]
      apply List.map_congr_left
      intro j _
      omega
    have hall : allChunksFail oracle 0 L.length = true
        ↔ ∀ i < L.length, chunkPermanentlyFails (oracle i) = true := by
      rw [allChunksFail_iff]
      constructor
      · intro h i hi
        have := h i hi
        rwa [Nat.zero_add] at this
      · intro h j hj
        rw [Nat.zero_add]
        exact h j hj
    have hcb : categorize_bookmarks bookmarks oracle =
        (if r.2.isEmpty then Except.ok r.1
         else if r.1.isEmpty then Except.error r.2
         else Except.ok r.1) := by
      unfold categorize_bookmarks
      rw [if_neg hne]
    constructor
    · intro fs
      by_cases hf2 : r.2.isEmpty
      · rw [hcb, if_pos hf2]
        constructor
        · intro h
          exact absurd h (by simp)
        · rintro ⟨hfs, hfsne, _⟩
          have : r.2 = [] := List.isEmpty_iff.mp hf2
          rw [hr2, hfe] at this
          rw [this] at hfs
          exact absurd hfs hfsne
      · by_cases hf1 : r.1.isEmpty
        · rw [hcb, if_neg hf2, if_pos hf1]
          constructor
          · intro h
            have hfs : r.2 = fs := by
              simpa using h
            refine ⟨by rw [← hfs, hr2, hfe], ?_, ?_⟩
            · rw [← hfs]
              intro hc
              rw [hc] at hf2
              exact hf2 rfl
            · exact hall.mp (by rw [← hr1]; exact hf1)
          · rintro ⟨hfs, _, _⟩
            rw [hfs, ← hfe, ← hr2]
        · rw [hcb, if_neg hf2, if_neg hf1]
          constructor
          · intro h
            exact absurd h (by simp)
          · rintro ⟨_, _, hallf⟩
            have : r.1.isEmpty = true := by
              rw [hr1]
              exact hall.mpr hallf
            exact absurd this hf1
    · rintro ⟨i, hi, hif⟩
      have hnall : allChunksFail oracle 0 L.length = false := by
        rcases hc : allChunksFail oracle 0 L.length with _ | _
        · rfl
        · have := hall.mp hc i hi
          rw [this] at hif
          cases hif
      have hf1 : r.1.isEmpty = false := by rw [hr1, hnall]
      refine ⟨r.1, ?_, hf1⟩
      rw [hcb]
      by_cases hf2 : r.2.isEmpty
      · rw [if_pos hf2]
      · rw [if_neg hf2, if_neg (by rw [hf1]; simp)]

/-- Witness for C3: a single-chunk input whose three outer attempts all
raise is reported as an aggregation error naming chunk 1. -/
theorem c3_aggregation_policy_witness :
    categorize_bookmarks [0] (fun _ _ => (none : Option (CatMap Nat))) = .error [1] :=
  ((c3_aggregation_policy [0] (fun _ _ => none)).1 [1]).mpr
    (by
      refine ⟨rfl, by decide, ?_⟩
      intro i hi
      have : i = 0 := by
        simpa [chunksOf, chunksOfAux] using hi
      subst this
      rfl)

/-! ### Claim C4 -/

theorem combineOpt_none_right {α : Type} (o : Option (List α)) : combineOpt o none = o := by
  cases o <;> rfl

theorem hasCategory_iff {α : Type} (m : CatMap α) (x : String) :
    hasCategory m x = true ↔ x ∈ m.map Prod.fst := by
  unfold hasCategory
  rw [List.any_eq_true]
  constructor
  · rintro ⟨kv, hkv, hp⟩
    simp only [decide_eq_true_eq] at hp
    exact hp ▸ List.mem_map_of_mem Prod.fst hkv
  · intro hx
    rcases List.mem_map.mp hx with ⟨kv, hkv, rfl⟩
    exact ⟨kv, hkv, by simp⟩

theorem keys_mergeCategory {α : Type} (m : CatMap α) (k : String) (its : List α) :
    (mergeCategory m k its).map Prod.fst
      = if hasCategory m k then m.map Prod.fst else m.map Prod.fst ++ [k] := by
  unfold mergeCategory
  split_ifs with h
  · rw [List.map_map]
    apply List.map_congr_left
    intro kv _
    by_cases hk : kv.1 = k <;> simp [hk]
  · simp

theorem find?_extend_ne {α : Type} (k k' : String) (its : List α) (h : k' ≠ k) :
    ∀ (m : CatMap α),
      List.find? (fun kv => kv.1 = k')
          (m.map (fun kv => if kv.1 = k then (kv.1, kv.2 ++ its) else kv))
        = List.find? (fun kv => kv.1 = k') m := by
  intro m
  induction m with
  | nil => rfl
  | cons kv rest ih =>
    by_cases hk : kv.1 = k
    · have hne : ¬ (kv.1 = k') := by
        rw [hk]
        exact fun hc => h hc.symm
      simp [List.find?_cons, hk, hne, ih, (show ¬ (k = k') from fun hc => h hc.symm)]
    · by_cases hk' : kv.1 = k'
      · simp only [List.map_cons, List.find?_cons]
        rw [show (if kv.1 = k then (kv.1, kv.2 ++ its) else kv) = kv from by simp [hk]]
        simp [hk']
      · simp only [List.map_cons, List.find?_cons]
        rw [show (if kv.1 = k then (kv.1, kv.2 ++ its) else kv) = kv from by simp [hk]]
        simp [hk', ih]

theorem find?_extend_self {α : Type} (k : String) (its : List α) :
    ∀ (m : CatMap α),
      List.find? (fun kv => kv.1 = k)
          (m.map (fun kv => if kv.1 = k then (kv.1, kv.2 ++ its) else kv))
        = (List.find? (fun kv => kv.1 = k) m).map (fun kv => (kv.1, kv.2 ++ its)) := by
  intro m
  induction m with
  | nil => rfl
  | cons kv rest ih =>
    by_cases hk : kv.1 = k
    · simp [List.find?_cons, hk]
    · simp [List.find?_cons, hk, ih]

theorem lookupCategory_mergeCategory {α : Type} (m : CatMap α) (k k' : String) (its : List α) :
    lookupCategory (mergeCategory m k its) k'
      = if k' = k then combineOpt (lookupCategory m k) (some its) else lookupCategory m k' := by
  by_cases hc : hasCategory m k
  · have hm : mergeCategory m k its
        = m.map (fun kv => if kv.1 = k then (kv.1, kv.2 ++ its) else kv) := by
      unfold mergeCategory
      rw [if_pos hc]
    by_cases h' : k' = k
    · subst h'
      rw [hm]
      unfold lookupCategory
      rw [find?_extend_self]
      have hsome : (List.find? (fun kv => kv.1 = k') m).isSome = true := by
        rw [List.find?_isSome]
        rcases List.mem_map.mp ((hasCategory_iff m k').mp hc) with ⟨kv, hkv, rfl⟩
        exact ⟨kv, hkv, by simp⟩
      rcases hf : List.find? (fun kv => kv.1 = k') m with _ | kv0
      · rw [hf] at hsome
        simp at hsome
      · simp [hf, combineOpt]
    · rw [hm]
      unfold lookupCategory
      rw [find?_extend_ne k k' its h', if_neg h']
  · have hm : mergeCategory m k its = m ++ [(k, its)] := by
      unfold mergeCategory
      rw [if_neg hc]
    have hnone : List.find? (fun kv => kv.1 = k) m = none := by
      rw [List.find?_eq_none]
      intro kv hkv
      simp only [decide_eq_true_eq]
      intro hc2
      apply hc
      rw [hasCategory_iff]
      exact hc2 ▸ List.mem_map_of_mem Prod.fst hkv
    by_cases h' : k' = k
    · subst h'
      rw [hm]
      unfold lookupCategory
      rw [List.find?_append, hnone]
      simp [List.find?_cons, combineOpt, hnone]
    · rw [hm]
      unfold lookupCategory
      rw [List.find?_append]
      have h2 : List.find? (fun kv => kv.1 = k') [(k, its)] = none := by
        simp [List.find?_cons, (show ¬ (k = k') from fun hc => h' hc.symm)]
      rw [h2, Option.or_none, if_neg h']

theorem hasCategory_mergeCategory {α : Type} (m : CatMap α) (k x : String) (its : List α)
    (hx : x ≠ k) :
    hasCategory (mergeCategory m k its) x = hasCategory m x := by
  rw [Bool.eq_iff_iff, hasCategory_iff, hasCategory_iff, keys_mergeCategory]
  by_cases h0 : hasCategory m k
  · rw [if_pos h0]
  · rw [if_neg h0, List.mem_append, List.mem_singleton]
    constructor
    · rintro (h | h)
      · exact h
      · exact absurd h hx
    · exact Or.inl


/-- C4: merging one chunk's category map into the aggregate is by category
name — under an existing key the chunk's items are appended after the
aggregate's, a new key is inserted (at the end, preserving order of first
appearance), and the aggregate's key list becomes the old keys followed by
the chunk's new keys in chunk order; a chunk's items under one key land
contiguously, in chunk order. -/
theorem c4_merge {α : Type} (agg chunk : CatMap α) (hnd : (chunk.map Prod.fst).Nodup) :
    (∀ k, lookupCategory (mergeChunk agg chunk) k
        = combineOpt (lookupCategory agg k) (lookupCategory chunk k))
    ∧ (mergeChunk agg chunk).map Prod.fst
        = agg.map Prod.fst ++ (chunk.map Prod.fst).filter (fun k => !hasCategory agg k) := by
  induction chunk generalizing agg with
  | nil =>
    refine ⟨?_, by simp [mergeChunk]⟩
    intro k
    rw [show mergeChunk agg [] = agg from rfl,
      show lookupCategory ([] : CatMap α) k = none from rfl, combineOpt_none_right]
  | cons kv rest ih =>
    obtain ⟨k0, its0⟩ := kv
    simp only [List.map_cons, List.nodup_cons] at hnd
    obtain ⟨hk0, hndrest⟩ := hnd
    have hstep : mergeChunk agg ((k0, its0) :: rest)
        = mergeChunk (mergeCategory agg k0 its0) rest := rfl
    obtain ⟨ihl, ihk⟩ := ih (mergeCategory agg k0 its0) hndrest
    constructor
    · intro k
      rw [hstep, ihl k, lookupCategory_mergeCategory]
      by_cases hk : k = k0
      · subst hk
        have hrest_none : lookupCategory rest k = none := by
          unfold lookupCategory
          rw [List.find?_eq_none.mpr ?_]
          · rfl
          · intro kv hkv
            simp only [decide_eq_true_eq]
            intro he
            exact hk0 (he ▸ List.mem_map_of_mem Prod.fst hkv)
        have hhead : lookupCategory ((k, its0) :: rest) k = some its0 := by
          simp [lookupCategory, List.find?_cons]
        rw [if_pos rfl, hrest_none, hhead, combineOpt_none_right]
      · have hhead : lookupCategory ((k0, its0) :: rest) k = lookupCategory rest k := by
          simp [lookupCategory, List.find?_cons, (show ¬ (k0 = k) from fun hc => hk hc.symm)]
        rw [if_neg hk, hhead]
    · rw [hstep, ihk, keys_mergeCategory]
      simp only [List.map_cons]
      by_cases h0 : hasCategory agg k0
      · rw [if_pos h0, List.filter_cons]
        rw [if_neg (by simp [h0])]
        congr 1
        apply List.filter_congr
        intro x hx
        have hxne : x ≠ k0 := fun hc => hk0 (hc ▸ hx)
        rw [hasCategory_mergeCategory agg k0 x its0 hxne]
      · rw [if_neg h0, List.filter_cons]
        rw [if_pos (by simp [h0])]
        rw [List.append_assoc, List.singleton_append]
        congr 2
        apply List.filter_congr
        intro x hx
        have hxne : x ≠ k0 := fun hc => hk0 (hc ▸ hx)
        rw [hasCategory_mergeCategory agg k0 x its0 hxne]

/-- Witness for C4 at the spec's concrete example maps. -/
theorem c4_merge_witness :
    (lookupCategory (mergeChunk ([("Dev", [1])] : CatMap Nat) [("Dev", [2]), ("News", [3])]) "Dev"
       = combineOpt (lookupCategory ([("Dev", [1])] : CatMap Nat) "Dev")
           (lookupCategory ([("Dev", [2]), ("News", [3])] : CatMap Nat) "Dev"))
    ∧ (mergeChunk ([("Dev", [1])] : CatMap Nat) [("Dev", [2]), ("News", [3])]).map Prod.fst
       = ([("Dev", [1])] : CatMap Nat).map Prod.fst
         ++ (([("Dev", [2]), ("News", [3])] : CatMap Nat).map Prod.fst).filter
              (fun k => !hasCategory ([("Dev", [1])] : CatMap Nat) k) := by
  have h := c4_merge ([("Dev", [1])] : CatMap Nat) [("Dev", [2]), ("News", [3])] (by decide)
  exact ⟨h.1 "Dev", h.2⟩

/-! ### Claim C8 -/

/-- C8: inside the aggregation loop, a structurally valid but empty category
map returned for an outer attempt is treated as a failure of that attempt:
three empty maps exhaust the retry budget and fail the chunk, a successful
chunk never carries an empty map, and an empty map on the first attempt
moves the loop on to the next attempt instead of being accepted. -/
theorem c8_empty_map_forces_retry {α : Type} (att : Nat → Option (CatMap α)) :
    ((∀ t, t < 3 → ∃ m, att t = some m ∧ m.isEmpty = true) → runChunk att = none)
    ∧ (∀ m, runChunk att = some m → m.isEmpty = false)
    ∧ (∀ m, att 0 = some m → m.isEmpty = true → runChunk att = chunkRetryLoop att 1 2) := by
  refine ⟨?_, runChunk_some_nonempty att, ?_⟩
  · intro h
    obtain ⟨m0, h0, e0⟩ := h 0 (by omega)
    obtain ⟨m1, h1, e1⟩ := h 1 (by omega)
    obtain ⟨m2, h2, e2⟩ := h 2 (by omega)
    rw [runChunk_eq_none_iff]
    unfold chunkPermanentlyFails attemptFails
    rw [h0, h1, h2]
    simp [e0, e1, e2]
  · intro m h0 he
    unfold runChunk
    simp [chunkRetryLoop, h0, he]


/-- Witness for C8: an empty map on attempt 0 hands control to the loop at
attempt 1 with one retry consumed. -/
theorem c8_empty_map_forces_retry_witness :
    runChunk (fun t => if t = 0 then some ([] : CatMap Nat) else some [("A", [1])])
      = chunkRetryLoop (fun t => if t = 0 then some ([] : CatMap Nat) else some [("A", [1])]) 1 2 :=
  (c8_empty_map_forces_retry
    (fun t => if t = 0 then some ([] : CatMap Nat) else some [("A", [1])])).2.2 [] rfl rfl

/-! ### Claim C10 -/

theorem chunksOfAux_flatten {α : Type} (k : Nat) (hk : 0 < k) :
    ∀ (fuel : Nat) (l : List α), l.length ≤ fuel → (chunksOfAux k fuel l).flatten = l := by
  intro fuel
  induction fuel with
  | zero =>
    intro l hl
    have hn : l = [] := List.length_eq_zero.mp (by omega)
    subst hn
    rfl
  | succ f ih =>
    intro l hl
    cases l with
    | nil => rfl
    | cons x rest =>
      show ((x :: rest).take k :: chunksOfAux k f ((x :: rest).drop k)).flatten = x :: rest
      rw [List.flatten_cons, ih _ (by simp only [List.length_drop, List.length_cons] at *; omega)]
      exact List.take_append_drop k (x :: rest)

theorem chunksOfAux_mem_length {α : Type} (k : Nat) (hk : 0 < k) :
    ∀ (fuel : Nat) (l : List α), l.length ≤ fuel →
      ∀ c ∈ chunksOfAux k fuel l, 0 < c.length ∧ c.length ≤ k := by
  intro fuel
  induction fuel with
  | zero =>
    intro l hl c hc
    simp [chunksOfAux] at hc
  | succ f ih =>
    intro l hl c hc
    cases l with
    | nil => simp [chunksOfAux] at hc
    | cons x rest =>
      rw [show chunksOfAux k (f+1) (x :: rest)
          = (x :: rest).take k :: chunksOfAux k f ((x :: rest).drop k) from rfl] at hc
      rcases List.mem_cons.mp hc with rfl | hmem
      · constructor
        · simp only [List.length_take, List.length_cons]
          omega
        · simp only [List.length_take]
          omega
      · exact ih _ (by simp only [List.length_drop, List.length_cons] at *; omega) c hmem

theorem chunksOfAux_dropLast_length {α : Type} (k : Nat) (hk : 0 < k) :
    ∀ (fuel : Nat) (l : List α), l.length ≤ fuel →
      ∀ c ∈ (chunksOfAux k fuel l).dropLast, c.length = k := by
  intro fuel
  induction fuel with
  | zero =>
    intro l hl c hc
    simp [chunksOfAux] at hc
  | succ f ih =>
    intro l hl c hc
    cases l with
    | nil => simp [chunksOfAux] at hc
    | cons x rest =>
      rw [show chunksOfAux k (f+1) (x :: rest)
          = (x :: rest).take k :: chunksOfAux k f ((x :: rest).drop k) from rfl] at hc
      rcases hrest : chunksOfAux k f ((x :: rest).drop k) with _ | ⟨c2, cs⟩
      · rw [hrest] at hc
        simp at hc
      · rw [hrest] at hc
        have hk_le : k ≤ (x :: rest).length := by
          by_contra hlt
          push_neg at hlt
          have hdrop : (x :: rest).drop k = [] := by
            apply List.drop_eq_nil_of_le
            omega
          rw [hdrop] at hrest
          rw [show chunksOfAux k f ([] : List α) = [] from by cases f <;> rfl] at hrest
          cases hrest
        rw [show ((x :: rest).take k :: c2 :: cs).dropLast
            = (x :: rest).take k :: (c2 :: cs).dropLast from rfl] at hc
        rcases List.mem_cons.mp hc with rfl | hmem
        · simp only [List.length_take, List.length_cons]
          simp only [List.length_cons] at hk_le
          omega
        · rw [← hrest] at hmem
          exact ih _ (by simp only [List.length_drop, List.length_cons] at *; omega) c hmem


/-- C10: the aggregator slices its bookmark list into contiguous runs of the
hard-coded `CHUNK_SIZE = 10` in original order — concatenating the slices
gives back the input (every bookmark in exactly one dispatched chunk), every
slice is non-empty with at most 10 bookmarks, and every slice except
possibly the last has exactly 10. -/
theorem c10_fixed_chunking {β : Type} (bs : List β) :
    CHUNK_SIZE = 10
    ∧ (chunksOf CHUNK_SIZE bs).flatten = bs
    ∧ (∀ c ∈ chunksOf CHUNK_SIZE bs, 0 < c.length ∧ c.length ≤ CHUNK_SIZE)
    ∧ (∀ c ∈ (chunksOf CHUNK_SIZE bs).dropLast, c.length = CHUNK_SIZE) :=
  ⟨rfl,
   chunksOfAux_flatten CHUNK_SIZE (by decide) bs.length bs le_rfl,
   chunksOfAux_mem_length CHUNK_SIZE (by decide) bs.length bs le_rfl,
   chunksOfAux_dropLast_length CHUNK_SIZE (by decide) bs.length bs le_rfl⟩


/-- Witness for C10 at a 23-bookmark input: three slices, the first full and
the last short. -/
theorem c10_fixed_chunking_witness :
    (chunksOf CHUNK_SIZE (List.range 23)).flatten = List.range 23
    ∧ (0 < ([20, 21, 22] : List Nat).length ∧ ([20, 21, 22] : List Nat).length ≤ CHUNK_SIZE)
    ∧ (List.range 10).length = CHUNK_SIZE := by
  obtain ⟨_, h2, h3, h4⟩ := c10_fixed_chunking (List.range 23)
  exact ⟨h2, h3 [20, 21, 22] (by decide), h4 (List.range 10) (by decide)⟩

/-! ### Claim C6 -/

theorem dispatchRetry_le {σ : Type} (transport : Nat → Option σ) :
    ∀ (fuel start : Nat), (dispatchRetry transport start fuel).2 ≤ fuel := by
  intro fuel
  induction fuel with
  | zero =>
    intro start
    simp [dispatchRetry]
  | succ f ih =>
    intro start
    rcases h : transport start with _ | s
    · have := ih (start + 1)
      simp only [dispatchRetry, h]
      omega
    · simp [dispatchRetry, h]

theorem dispatch_first_success {σ : Type} (t : Nat → Option σ) (s : σ) (h : t 0 = some s) :
    dispatch t = (some s, 1) := by
  unfold dispatch
  simp [dispatchRetry, h]

theorem outerRequestLoop_le (transport : Nat → Nat → Option (List Char)) :
    ∀ (fuel k : Nat), (outerRequestLoop transport k fuel).2 ≤ 3 * fuel := by
  intro fuel
  induction fuel with
  | zero =>
    intro k
    simp [outerRequestLoop]
  | succ f ih =>
    intro k
    have hd : (dispatch (transport k)).2 ≤ 3 := dispatchRetry_le (transport k) 3 0
    have hr := ih (k + 1)
    rcases h : (dispatch (transport k)).1 with _ | s
    · simp only [outerRequestLoop, h]
      omega
    · simp only [outerRequestLoop, h]
      split_ifs
      · omega
      · omega

theorem outerRequestLoop_first_ok (transport : Nat → Nat → Option (List Char))
    (h : ∀ k, ∃ s, transport k 0 = some s) :
    ∀ (fuel k : Nat), (outerRequestLoop transport k fuel).2 ≤ fuel := by
  intro fuel
  induction fuel with
  | zero =>
    intro k
    simp [outerRequestLoop]
  | succ f ih =>
    intro k
    obtain ⟨s, hs⟩ := h k
    have hd : dispatch (transport k) = (some s, 1) := dispatch_first_success (transport k) s hs
    have hr := ih (k + 1)
    simp only [outerRequestLoop, hd]
    split_ifs
    · omega
    · omega


/-- C6: the dispatcher makes at most 3 underlying request attempts per
decorated call, with the configured backoff clamped into `[4, 10]` time
units between attempts; the aggregator retries the combined
dispatch-and-validate step at most 3 times, so one chunk consumes at most
`3 × 3 = 9` underlying requests; and the dispatcher stops at the first
transport success regardless of response content — a validation failure is
retried only by the outer loop (costing one request per round when
transport succeeds immediately, hence at most 3). -/
theorem c6_retry_budget (transport : Nat → Nat → Option (List Char)) :
    (∀ (σ : Type) (t : Nat → Option σ), (dispatch t).2 ≤ 3)
    ∧ chunkRequestCount transport ≤ 9
    ∧ (∀ n : Nat, 4 ≤ waitAfterAttempt n ∧ waitAfterAttempt n ≤ 10)
    ∧ (∀ (σ : Type) (t : Nat → Option σ) (s : σ), t 0 = some s → dispatch t = (some s, 1))
    ∧ ((∀ k, ∃ s, transport k 0 = some s) → chunkRequestCount transport ≤ 3) := by
  refine ⟨?_, ?_, ?_, ?_, ?_⟩
  · intro σ t
    exact dispatchRetry_le t 3 0
  · exact outerRequestLoop_le transport 3 0
  · intro n
    exact ⟨le_min (by norm_num) (le_max_left 4 _), min_le_left 10 _⟩
  · intro σ t s h
    exact dispatch_first_success t s h
  · intro h
    exact outerRequestLoop_first_ok transport h 3 0

/-- Witness for C6: the all-failing transport stays within 9 requests; the
backoff bounds hold after the first attempt; a first-attempt transport
success returns after exactly one request even though the text fails
validation, and such a chunk consumes at most 3 requests in total. -/
theorem c6_retry_budget_witness :
    chunkRequestCount (fun _ _ => none) ≤ 9
    ∧ (4 ≤ waitAfterAttempt 1 ∧ waitAfterAttempt 1 ≤ 10)
    ∧ dispatch (fun _ => some "not json".data) = (some "not json".data, 1)
    ∧ chunkRequestCount (fun _ _ => some "not json".data) ≤ 3 := by
  obtain ⟨_, hb, hw, _, _⟩ := c6_retry_budget (fun _ _ => none)
  obtain ⟨_, _, _, hd, hv⟩ := c6_retry_budget (fun _ _ => some "not json".data)
  exact ⟨hb, hw 1, hd (List Char) (fun _ => some "not json".data) "not json".data rfl,
    hv (fun _ => ⟨"not json".data, rfl⟩)⟩

/-! ### Claim C5 -/

theorem checkBookmark_eq_none_iff (c : String) (b : Json) :
    checkBookmark c b = none ↔ goodItem b = true := by
  cases b <;> simp [checkBookmark, goodItem] <;> split_ifs <;> simp_all

theorem checkBookmark_eq_some (c : String) (b : Json) (e : RespError)
    (h : checkBookmark c b = some e) :
    (e = .invalidBookmark c b ∨ e = .missingFields c b) ∧ goodItem b = false := by
  cases b <;>
    first
      | (simp only [checkBookmark, Option.some_inj] at h
         subst h
         exact ⟨Or.inl rfl, rfl⟩)
      | (rename_i kvs
         by_cases hg : (jsonHasKey kvs "title" && jsonHasKey kvs "url") = true
         · rw [show checkBookmark c (Json.obj kvs) = none from by
             simp [checkBookmark, hg]] at h
           cases h
         · rw [show checkBookmark c (Json.obj kvs)
               = some (.missingFields c (Json.obj kvs)) from by
             simp only [checkBookmark]
             rw [if_neg hg]] at h
           simp only [Option.some_inj] at h
           subst h
           refine ⟨Or.inr rfl, ?_⟩
           simpa [goodItem] using hg)

theorem checkBookmarkList_none_iff (c : String) :
    ∀ (items : List Json),
      checkBookmarkList c items = none ↔ ∀ b ∈ items, goodItem b = true := by
  intro items
  induction items with
  | nil => simp [checkBookmarkList]
  | cons b rest ih =>
    have hstep : checkBookmarkList c (b :: rest)
        = (match checkBookmark c b with
           | some e => some e
           | none => checkBookmarkList c rest) := rfl
    rcases hb : checkBookmark c b with _ | e
    · rw [hstep, hb]
      have hg := (checkBookmark_eq_none_iff c b).mp hb
      simp [ih, hg]
    · rw [hstep, hb]
      have hg := (checkBookmark_eq_some c b e hb).2
      constructor
      · intro h
        cases h
      · intro hall
        rw [hall b (by simp)] at hg
        cases hg

theorem checkBookmarkList_some (c : String) :
    ∀ (items : List Json) (e : RespError), checkBookmarkList c items = some e →
      ∃ b, b ∈ items ∧ (e = .invalidBookmark c b ∨ e = .missingFields c b)
        ∧ goodItem b = false := by
  intro items
  induction items with
  | nil =>
    intro e h
    cases h
  | cons b rest ih =>
    intro e h
    have hstep : checkBookmarkList c (b :: rest)
        = (match checkBookmark c b with
           | some e => some e
           | none => checkBookmarkList c rest) := rfl
    rcases hb : checkBookmark c b with _ | e0
    · rw [hstep, hb] at h
      obtain ⟨b2, hmem, hrest⟩ := ih e h
      exact ⟨b2, by simp [hmem], hrest⟩
    · rw [hstep, hb] at h
      simp only [Option.some_inj] at h
      subst h
      obtain ⟨he, hg⟩ := checkBookmark_eq_some c b e0 hb
      exact ⟨b, by simp, he, hg⟩

theorem checkCategories_none_iff :
    ∀ (kvs : List (String × Json)), (∀ kv ∈ kvs, ∃ items, kv.2 = Json.arr items) →
      (checkCategories kvs = none ↔
        ∀ c items, (c, Json.arr items) ∈ kvs → ∀ b ∈ items, goodItem b = true) := by
  intro kvs
  induction kvs with
  | nil =>
    intro _
    simp [checkCategories]
  | cons kv rest ih =>
    intro hlists
    obtain ⟨c0, v0⟩ := kv
    obtain ⟨items0, hv0⟩ := hlists (c0, v0) (by simp)
    simp only at hv0
    subst hv0
    have hstep : checkCategories ((c0, Json.arr items0) :: rest)
        = (match checkBookmarkList c0 items0 with
           | some e => some e
           | none => checkCategories rest) := rfl
    have ihr := ih (fun kv hkv => hlists kv (by simp [hkv]))
    rcases hcl : checkBookmarkList c0 items0 with _ | e
    · rw [hstep, hcl]
      rw [ihr]
      have hhead := (checkBookmarkList_none_iff c0 items0).mp hcl
      constructor
      · intro hrest c items hmem b hb
        rcases List.mem_cons.mp hmem with heq | htail
        · injection heq with h1 h2
          subst h1
          injection h2 with h3
          subst h3
          exact hhead b hb
        · exact hrest c items htail b hb
      · intro hall c items hmem b hb
        exact hall c items (by simp [hmem]) b hb
    · rw [hstep, hcl]
      constructor
      · intro h
        cases h
      · intro hall
        obtain ⟨b, hbmem, _, hg⟩ := checkBookmarkList_some c0 items0 e hcl
        rw [hall c0 items0 (by simp) b hbmem] at hg
        cases hg

theorem checkCategories_some :
    ∀ (kvs : List (String × Json)), (∀ kv ∈ kvs, ∃ items, kv.2 = Json.arr items) →
      ∀ e, checkCategories kvs = some e →
        ∃ c b items, (e = .invalidBookmark c b ∨ e = .missingFields c b)
          ∧ (c, Json.arr items) ∈ kvs ∧ b ∈ items ∧ goodItem b = false := by
  intro kvs
  induction kvs with
  | nil =>
    intro _ e h
    cases h
  | cons kv rest ih =>
    intro hlists e h
    obtain ⟨c0, v0⟩ := kv
    obtain ⟨items0, hv0⟩ := hlists (c0, v0) (by simp)
    simp only at hv0
    subst hv0
    have hstep : checkCategories ((c0, Json.arr items0) :: rest)
        = (match checkBookmarkList c0 items0 with
           | some e => some e
           | none => checkCategories rest) := rfl
    rcases hcl : checkBookmarkList c0 items0 with _ | e0
    · rw [hstep, hcl] at h
      obtain ⟨c, b, items, hor, hmem, hb, hg⟩ :=
        ih (fun kv hkv => hlists kv (by simp [hkv])) e h
      exact ⟨c, b, items, hor, by simp [hmem], hb, hg⟩
    · rw [hstep, hcl] at h
      simp only [Option.some_inj] at h
      subst h
      obtain ⟨b, hbmem, hor, hg⟩ := checkBookmarkList_some c0 items0 e0 hcl
      exact ⟨c0, b, items0, hor, by simp, hbmem, hg⟩


/-- C5 fails on the code: `_parse_response` checks only that an item is a
mapping containing the keys `title` and `url` — it never checks that `url`
is non-empty.  A response whose only item has `url = ""` is accepted, where
the claim requires an invalid-response error. -/
theorem c5_counterexample :
    parse_response "\x7b\"A\":[\x7b\"title\":\"x\",\"url\":\"\"\x7d]\x7d".data
      = .ok (.obj [("A", .arr [.obj [("title", .str "x"), ("url", .str "")]])]) := rfl

/-- C5 (amended): for every response text whose decoded top-level mapping
binds every category to a list, if some category's list has an item that is
not a mapping or lacks a `title` key or lacks a `url` key, the validator
fails with an error naming an offending category and item; if every item is
a mapping with `title` and `url` keys (the `url` value may be empty), the
decoded data is returned unchanged. -/
theorem c5_amended (s : List Char) (kvs : List (String × Json))
    (hdec : json_loads (cleanResponse s) = some (.obj kvs))
    (hlists : ∀ kv ∈ kvs, ∃ items, kv.2 = Json.arr items) :
    ((∃ c items b, (c, Json.arr items) ∈ kvs ∧ b ∈ items ∧ goodItem b = false) →
      ∃ c b, (parse_response s = .error (.invalidBookmark c b)
              ∨ parse_response s = .error (.missingFields c b))
        ∧ ∃ items, (c, Json.arr items) ∈ kvs ∧ b ∈ items ∧ goodItem b = false)
    ∧ ((∀ c items, (c, Json.arr items) ∈ kvs → ∀ b ∈ items, goodItem b = true) →
      parse_response s = .ok (.obj kvs)) := by
  have hpr : parse_response s
      = (match checkCategories kvs with
         | some e => Except.error e
         | none => Except.ok (Json.obj kvs)) := by
    unfold parse_response
    rw [hdec]
  constructor
  · rintro ⟨c1, items1, b1, hmem1, hb1, hg1⟩
    rcases hcc : checkCategories kvs with _ | e
    · exfalso
      have hall := (checkCategories_none_iff kvs hlists).mp hcc
      rw [hall c1 items1 hmem1 b1 hb1] at hg1
      cases hg1
    · obtain ⟨c, b, items, hor, hmem, hb, hg⟩ := checkCategories_some kvs hlists e hcc
      refine ⟨c, b, ?_, items, hmem, hb, hg⟩
      rw [hpr, hcc]
      rcases hor with h | h
      · exact Or.inl (by rw [h])
      · exact Or.inr (by rw [h])
  · intro hall
    have hcc : checkCategories kvs = none := (checkCategories_none_iff kvs hlists).mpr hall
    rw [hpr, hcc]

/-- Witness for C5 (amended): the spec's `missing url` example is rejected
naming category `A` and the offending item. -/
theorem c5_amended_witness :
    ∃ c b, (parse_response "\x7b\"A\":[\x7b\"title\":\"x\"\x7d]\x7d".data
              = .error (.invalidBookmark c b)
            ∨ parse_response "\x7b\"A\":[\x7b\"title\":\"x\"\x7d]\x7d".data
              = .error (.missingFields c b))
      ∧ ∃ items, (c, Json.arr items)
            ∈ [("A", Json.arr [Json.obj [("title", Json.str "x")]])]
          ∧ b ∈ items ∧ goodItem b = false :=
  (c5_amended "\x7b\"A\":[\x7b\"title\":\"x\"\x7d]\x7d".data
      [("A", Json.arr [Json.obj [("title", Json.str "x")]])] rfl
      (by
        intro kv hkv
        rw [List.mem_singleton.mp hkv]
        exact ⟨[Json.obj [("title", Json.str "x")]], rfl⟩)).1
    ⟨"A", [Json.obj [("title", Json.str "x")]], Json.obj [("title", Json.str "x")],
      by simp, by simp, rfl⟩

/-! ### Claim C7 -/

/-- C7 fails on the code: the clean-up step applies its two leading-marker
`if`s in sequence, so an input starting with the seven characters of the
json-tagged marker immediately followed by a bare triple-backtick marker
has BOTH stripped (and then parses), while under the claim at most one
leading wrapper may be stripped — the once-stripped text is not JSON, so
the claim requires a not-JSON error here. -/
theorem c7_counterexample :
    parse_response "```json```\x7b\"A\":[]\x7d".data = .ok (.obj [("A", .arr [])])
    ∧ json_loads (pyStrip "```\x7b\"A\":[]\x7d".data) = none :=
  ⟨rfl, rfl⟩

/-- C7 (amended): the validator strips, in order, an optional leading
json-tagged fence marker, then an optional leading bare fence marker (so
both are stripped when the first is immediately followed by the second),
then an optional trailing fence marker; the fenced example parses to its
category map, text that is not JSON after this stripping fails with the
not-JSON error, and the double-strip corner case is exhibited. -/
theorem c7_amended :
    parse_response "```json\n\x7b\"A\":[]\x7d\n```".data = .ok (.obj [("A", .arr [])])
    ∧ parse_response "not json".data = .error .invalidJson
    ∧ (∀ s : List Char, json_loads (cleanResponse s) = none →
        parse_response s = .error RespError.invalidJson)
    ∧ cleanResponse "```json```\x7b\"A\":[]\x7d".data = "\x7b\"A\":[]\x7d".data := by
  refine ⟨rfl, rfl, ?_, rfl⟩
  intro s h
  unfold parse_response
  rw [h]

/-- Witness for C7 (amended) at a concrete non-JSON text. -/
theorem c7_amended_witness :
    parse_response "xyz".data = .error RespError.invalidJson :=
  c7_amended.2.2.1 "xyz".data rfl

end BookmarkOrganizer
